import Mathlib

/-!
Verification development for the tiny-crawl web crawler (src/crawler.py).

The Python source is shallowly embedded: pure functions become Lean
functions over `String`/`List Char`; the stateful worker loop becomes an
explicit state-passing step function driven by fuel; the external fetch
engine (crawl4ai) is a parameter `String → Option FetchResult`; the file
system is an association list from filename to file content.

Library calls from Python's standard library (`urllib.parse.urlparse`,
`urljoin`, `str.strip`, `str.lower`, `re.findall` for the one regex the
source uses) are modelled on CPython 3.11 semantics.  `str.lower` is
modelled on ASCII (no URL in the development uses non-ASCII letters).
-/

/-! ## Python string primitives -/

/-- Characters stripped by Python `str.strip()` (the `str.isspace` set). -/
def pyIsSpace (c : Char) : Bool :=
  c = ' ' || c = '\t' || c = '\n' || c = '\r' || c = '\u000b' || c = '\u000c' ||
  c = '\u001c' || c = '\u001d' || c = '\u001e' || c = '\u001f' || c = '\u0085' || c = '\u00a0' ||
  c = '\u1680' || ('\u2000' ≤ c && c ≤ '\u200a') || c = '\u2028' || c = '\u2029' ||
  c = '\u202f' || c = '\u205f' || c = '\u3000'

/-- Drops the given characters from both ends of a character list. -/
def stripEndsWhile (p : Char → Bool) (l : List Char) : List Char :=
  ((l.dropWhile p).reverse.dropWhile p).reverse

/-- Python `s.strip()` — strip whitespace from both ends. -/
def pyStrip (s : String) : String := ⟨stripEndsWhile pyIsSpace s.data⟩

/-- Python `s.strip("_")` — strip underscores from both ends. -/
def stripUnderscores (s : String) : String := ⟨stripEndsWhile (fun c => c = '_') s.data⟩

/-- Python `s.lower()`, restricted to ASCII case mapping. -/
def pyLower (s : String) : String := ⟨s.data.map Char.toLower⟩

/-- Does the list start with the given list? -/
def listStarts : List Char → List Char → Bool
  | [], _ => true
  | _ :: _, [] => false
  | a :: as, b :: bs => a = b && listStarts as bs

/-- Python `s.startswith(pre)`. -/
def pyStartsWith (pre s : String) : Bool := listStarts pre.data s.data

/-- Python `s.endswith(suf)`. -/
def pyEndsWith (suf s : String) : Bool := listStarts suf.data.reverse s.data.reverse

/-- Is `sub` a contiguous sublist of the second argument? -/
def containsSub (sub : List Char) : List Char → Bool
  | [] => sub.isEmpty
  | c :: rest => listStarts sub (c :: rest) || containsSub sub rest

/-- Python `sub in s` for strings (substring containment). -/
def pyIn (sub s : String) : Bool := containsSub sub.data s.data

/-- Python `s.split("\n")[0]`: the first line of a string. -/
def pyFirstLine (s : String) : String := ⟨s.data.takeWhile (fun c => c ≠ '\n')⟩

/-- Python slice `s[n:]`. -/
def pyDrop (n : Nat) (s : String) : String := ⟨s.data.drop n⟩

/-! ## Model of `urllib.parse` (CPython 3.11)

`urlsplit` removes all tab/CR/LF characters, then takes the `scheme:`
prefix (when present and well formed), the `//netloc` part up to the
first of `/?#`, splits off the fragment at the first `#` and the query
at the first `?`.  `urlparse` additionally splits `;params` off the
last path segment for schemes that use parameters.  The IPv6-bracket
and NFKC netloc validation errors are not modelled (no input in this
development contains brackets or non-ASCII characters). -/

structure SplitUrl where
  scheme : String
  netloc : String
  path : String
  query : String
  fragment : String
deriving Repr, DecidableEq

structure ParsedUrl where
  scheme : String
  netloc : String
  path : String
  params : String
  query : String
  fragment : String
deriving Repr, DecidableEq

/-- `_UNSAFE_URL_BYTES_TO_REMOVE`: urlsplit removes every tab, CR and LF. -/
def removeUnsafeBytes (s : String) : String :=
  ⟨s.data.filter (fun c => c ≠ '\t' && c ≠ '\r' && c ≠ '\n')⟩

/-- Characters allowed in a URL scheme (`scheme_chars`). -/
def schemeChar (c : Char) : Bool := c.isAlpha || c.isDigit || c = '+' || c = '-' || c = '.'

/-- Splits a leading well-formed `scheme:` off a URL; returns `("", l)` when absent. -/
def splitScheme (l : List Char) : String × List Char :=
  let pre := l.takeWhile (fun c => c ≠ ':')
  if pre.length < l.length ∧ pre ≠ [] ∧ (pre.headD ' ').isAlpha ∧ pre.all schemeChar then
    (⟨pre.map Char.toLower⟩, (l.drop pre.length).drop 1)
  else ("", l)

/-- `_splitnetloc`: the netloc extends to the first of `/`, `?`, `#`. -/
def splitNetloc (l : List Char) : List Char × List Char :=
  (l.takeWhile (fun c => c ≠ '/' && c ≠ '?' && c ≠ '#'),
   l.dropWhile (fun c => c ≠ '/' && c ≠ '?' && c ≠ '#'))

/-- Python `l.split(sep, 1)`: the part before the first `sep` and the part after
(the second component is empty when `sep` is absent, matching the guarded use). -/
def splitAtFirst (sep : Char) (l : List Char) : List Char × List Char :=
  (l.takeWhile (fun c => c ≠ sep), (l.dropWhile (fun c => c ≠ sep)).drop 1)

def usesRelative : List String :=
  ["", "ftp", "http", "gopher", "nntp", "imap", "wais", "file", "https", "shttp",
   "mms", "prospero", "rtsp", "rtspu", "sftp", "svn", "svn+ssh", "ws", "wss"]

def usesNetloc : List String :=
  ["", "ftp", "http", "gopher", "nntp", "telnet", "imap", "wais", "file", "mms",
   "https", "shttp", "snews", "prospero", "rtsp", "rtspu", "rsync", "svn",
   "svn+ssh", "sftp", "nfs", "git", "git+ssh", "ws", "wss"]

def usesParams : List String :=
  ["", "ftp", "hdl", "prospero", "http", "imap", "https", "shttp", "rtsp",
   "rtspu", "sip", "sips", "mms", "sftp", "tel"]

/-- `urllib.parse.urlsplit` with a default scheme (as used by `urljoin`). -/
def urlsplitD (url : String) (defaultScheme : String) : SplitUrl :=
  let u := removeUnsafeBytes url
  let p := splitScheme u.data
  let scheme := if p.1 = "" then removeUnsafeBytes defaultScheme else p.1
  let rest := p.2
  let nl := if rest.take 2 = ['/', '/'] then splitNetloc (rest.drop 2) else ([], rest)
  let fr := splitAtFirst '#' nl.2
  let qu := splitAtFirst '?' fr.1
  ⟨scheme, ⟨nl.1⟩, ⟨qu.1⟩, ⟨qu.2⟩, ⟨fr.2⟩⟩

/-- `_splitparams`: split `;params` off the last path segment. -/
def splitParams (pathq : List Char) : List Char × List Char :=
  if '/' ∈ pathq then
    let revp := pathq.reverse
    let lastSeg := (revp.takeWhile (fun c => c ≠ '/')).reverse
    let pre := (revp.dropWhile (fun c => c ≠ '/')).reverse
    if ';' ∈ lastSeg then
      (pre ++ lastSeg.takeWhile (fun c => c ≠ ';'),
       (lastSeg.dropWhile (fun c => c ≠ ';')).drop 1)
    else (pathq, [])
  else
    (pathq.takeWhile (fun c => c ≠ ';'), (pathq.dropWhile (fun c => c ≠ ';')).drop 1)

/-- `urllib.parse.urlparse` with a default scheme. -/
def urlparseD (url : String) (defaultScheme : String) : ParsedUrl :=
  let s := urlsplitD url defaultScheme
  if s.scheme ∈ usesParams ∧ ';' ∈ s.path.data then
    let pr := splitParams s.path.data
    ⟨s.scheme, s.netloc, ⟨pr.1⟩, ⟨pr.2⟩, s.query, s.fragment⟩
  else ⟨s.scheme, s.netloc, s.path, "", s.query, s.fragment⟩

/-- `urllib.parse.urlparse` as called by the crawler (no default scheme). -/
def urlparse (url : String) : ParsedUrl := urlparseD url ""

/-- `urllib.parse.urlunsplit`. -/
def urlunsplit (scheme netloc path query fragment : String) : String :=
  let url := path
  let url :=
    if netloc ≠ "" ∨ (scheme ≠ "" ∧ scheme ∈ usesNetloc ∧ ¬ pyStartsWith "//" url) then
      "//" ++ netloc ++ (if url ≠ "" ∧ ¬ pyStartsWith "/" url then "/" ++ url else url)
    else url
  let url := if scheme ≠ "" then scheme ++ ":" ++ url else url
  let url := if query ≠ "" then url ++ "?" ++ query else url
  if fragment ≠ "" then url ++ "#" ++ fragment else url

/-- `urllib.parse.urlunparse`. -/
def urlunparse (p : ParsedUrl) : String :=
  let path := if p.params ≠ "" then p.path ++ ";" ++ p.params else p.path
  urlunsplit p.scheme p.netloc path p.query p.fragment

/-- Python `s.split('/')` on character lists (always returns a nonempty list). -/
def splitSlash : List Char → List (List Char)
  | [] => [[]]
  | c :: rest =>
    if c = '/' then [] :: splitSlash rest
    else
      match splitSlash rest with
      | [] => [[c]]
      | s :: ss => (c :: s) :: ss

/-- `segments[1:-1] = filter(None, segments[1:-1])`: drop empty segments,
keeping the first and last elements. -/
def filterMiddle : List (List Char) → List (List Char)
  | [] => []
  | [x] => [x]
  | x :: rest => x :: (rest.dropLast.filter (fun seg => seg ≠ []) ++ [rest.getLastD []])

/-- `urllib.parse.urljoin` (CPython 3.11, RFC 3986 dot-segment resolution). -/
def urljoin (base url : String) : String :=
  if base = "" then url
  else if url = "" then base
  else
    let b := urlparseD base ""
    let u := urlparseD url b.scheme
    if u.scheme ≠ b.scheme ∨ u.scheme ∉ usesRelative then url
    else if u.scheme ∈ usesNetloc ∧ u.netloc ≠ "" then urlunparse u
    else
      let netloc := if u.scheme ∈ usesNetloc then b.netloc else u.netloc
      if u.path = "" ∧ u.params = "" then
        urlunparse ⟨u.scheme, netloc, b.path, b.params,
                    (if u.query = "" then b.query else u.query), u.fragment⟩
      else
        let baseParts := splitSlash b.path.data
        let baseParts := if baseParts.getLastD [] ≠ [] then baseParts.dropLast else baseParts
        let segments :=
          if pyStartsWith "/" u.path then splitSlash u.path.data
          else filterMiddle (baseParts ++ splitSlash u.path.data)
        let resolved := segments.foldl
          (fun acc seg =>
            if seg = ['.', '.'] then acc.dropLast
            else if seg = ['.'] then acc
            else acc ++ [seg]) []
        let resolved :=
          if segments.getLastD [] = ['.'] ∨ segments.getLastD [] = ['.', '.'] then
            resolved ++ [[]]
          else resolved
        let joined := List.intercalate ['/'] resolved
        let path := if joined = [] then "/" else (⟨joined⟩ : String)
        urlunparse ⟨u.scheme, netloc, path, u.params, u.query, u.fragment⟩

/-! ## The crawler's pure functions (src/crawler.py) -/

/-- Embeds `extract_links_from_html` (crawler.py lines 24-34).  BeautifulSoup's
anchor scan is an external collaborator; the function is modelled on the list
of `href` attribute values the parser yields for the page, mirroring the loop
body: each href is resolved with `urljoin` against `current_url` and appended. -/
def extract_links_from_html (hrefs : List String) (current_url : String) : List String :=
  hrefs.foldl (fun links href => links ++ [urljoin current_url href]) []

/-- Embeds `get_filename_from_url` (crawler.py lines 37-40). -/
def get_filename_from_url (url : String) : String :=
  let path0 := (urlparse url).path
  let path1 : String := ⟨path0.data.map (fun c => if c = '/' then '_' else c)⟩
  let path2 := stripUnderscores path1
  let path := if path2 = "" then "index" else path2
  if ¬ pyEndsWith ".md" path then path ++ ".md" else path

/-- The blocked asset extensions of `is_valid_link` (crawler.py line 58). -/
def file_exts : List String :=
  [".pdf", ".zip", ".png", ".jpg", ".jpeg", ".gif", ".svg", ".css", ".js", ".ico", ".webp"]

/-- The extension test `any(ext in path.lower() for ext in file_exts)` of
`is_valid_link` (crawler.py line 59): a *substring* test on the lowercased
(stripped) path. -/
def rejectsByExtension (path : String) : Bool :=
  file_exts.any (fun e => pyIn e (pyLower path))

/-- Embeds `is_valid_link` (crawler.py lines 43-62). -/
def is_valid_link (url base_url : String) : Bool :=
  let parsed := urlparse url
  let base_parsed := urlparse base_url
  if parsed.netloc = "" ∨ parsed.netloc ≠ base_parsed.netloc then false
  else
    let path := pyStrip parsed.path
    if path = "" ∨ path = "/" ∨ path = "/#" ∨ path = "#" then false
    else if pyIn "javascript:" (pyLower url) ∨ pyIn "mailto:" (pyLower url) then false
    else if rejectsByExtension path then false
    else true

/-- Embeds `normalize_url` (crawler.py lines 65-78). -/
def normalize_url (url base_url : String) : Option String :=
  if url = "" then none
  else
    let parsed := urlparse url
    if parsed.scheme ≠ "" then some url
    else
      let absolute_link := urljoin base_url url
      if absolute_link ≠ "" ∧
         (pyStartsWith "http://" absolute_link ∨ pyStartsWith "https://" absolute_link) then
        some absolute_link
      else none

/-- Helper for `dedupKeepFirst`: drop elements already seen. -/
def dedupSeen : List String → List String → List String
  | [], _ => []
  | x :: xs, seen => if x ∈ seen then dedupSeen xs seen else x :: dedupSeen xs (x :: seen)

/-- Keeps the first occurrence of each element, dropping later duplicates.
Models the `links` value of `extract_all_links`, built as a Python `set`:
the set deduplicates; its iteration order is unspecified in Python, and the
model fixes first-insertion order. -/
def dedupKeepFirst (l : List String) : List String := dedupSeen l []

/-- Result of the external fetch engine (`crawler.arun`), as the worker reads
it: an optional markdown rendering, the href values BeautifulSoup would
extract from `result.html` (`none` models a falsy `result.html`), and the
entries of `result.links` already coerced to strings (the source accepts
either raw strings or dicts carrying an `href` key). -/
structure FetchResult where
  markdown : Option String
  htmlHrefs : Option (List String)
  rawLinks : List String
deriving Repr

/-- Embeds `extract_all_links` (crawler.py lines 81-95): the union (as a set)
of the html-extracted links and the engine-provided link strings, with empty
strings dropped. -/
def extract_all_links (r : FetchResult) (current_url : String) : List String :=
  let fromHtml :=
    match r.htmlHrefs with
    | some hrefs => extract_links_from_html hrefs current_url
    | none => []
  (dedupKeepFirst (fromHtml ++ r.rawLinks)).filter (fun l => l ≠ "")

/-- Embeds `crawl_page` (crawler.py lines 98-113).  The engine returning
`none` models `crawler.arun` raising an exception, which the source catches
and converts to `None`.  A fetched page is kept only when its markdown is
truthy and its stripped length exceeds 100. -/
def crawl_page (engine : String → Option FetchResult) (url : String) :
    Option (String × String × List String) :=
  match engine url with
  | none => none
  | some r =>
    match r.markdown with
    | none => none
    | some md =>
      if md ≠ "" ∧ 100 < (pyStrip md).length then
        some (url, md, extract_all_links r url)
      else none

/-- The text `save_page` (crawler.py lines 116-125) writes for a page:
header line `# <url>`, a blank line, then the body. -/
def savedFileContent (url content : String) : String :=
  "# " ++ url ++ "\n\n" ++ content

/-- Embeds `save_page` (crawler.py lines 116-125) over the association-list
file system: returns the updated file system and the filename written. -/
def save_page (files : List (String × String)) (url content : String) :
    List (String × String) × String :=
  let filename := get_filename_from_url url
  ((filename, savedFileContent url content) :: files, filename)

/-- Embeds `file_exists_for_url` (crawler.py lines 128-131). -/
def file_exists_for_url (files : List (String × String)) (url : String) : Bool :=
  files.any (fun f => f.1 = get_filename_from_url url)

/-- The first-line parse of `extract_existing_urls` (crawler.py lines 140-143):
take the first line, require the `# ` header, strip the remainder. -/
def headerUrl (content : String) : Option String :=
  let first_line := pyFirstLine content
  if pyStartsWith "# " first_line then some (pyStrip (pyDrop 2 first_line)) else none

/-- Embeds `extract_existing_urls` (crawler.py lines 134-151) over the list of
persisted `.md` files (filename, content).  The Python set of URLs is modelled
as a list deduplicated in first-insertion order. -/
def extract_existing_urls (files : List (String × String)) : List String :=
  files.foldl
    (fun acc f =>
      match headerUrl f.2 with
      | some u => if u ≠ "" ∧ u ∉ acc then acc ++ [u] else acc
      | none => acc) []

/-! ## Markdown link extraction (the regex of lines 205-220)

The single regex the source uses is modelled directly:
`re.findall(r"\[([^\]]+)\]\(([^\)]+)\)", content)` scans left to right;
at each `[` it takes the maximal nonempty run of non-`]` characters, then
requires `](`, then the maximal nonempty run of non-`)` characters, then
`)`; after a match it continues after the match, after a failure it
continues one character further on. -/

/-- All matches of the inline-link regex, as (label, target) pairs, with
explicit fuel bounding the number of scan positions (structural recursion;
`mdFindAll` supplies fuel equal to the input length, which never runs out
since every recursive call consumes at least one character). -/
def mdFindAllFuel : Nat → List Char → List (List Char × List Char)
  | 0, _ => []
  | _, [] => []
  | fuel + 1, c :: rest =>
    if c = '[' then
      let label := rest.takeWhile (fun ch => ch ≠ ']')
      match rest.dropWhile (fun ch => ch ≠ ']') with
      | ']' :: '(' :: rest2 =>
        let tgt := rest2.takeWhile (fun ch => ch ≠ ')')
        match rest2.dropWhile (fun ch => ch ≠ ')') with
        | ')' :: rest3 =>
          if label ≠ [] ∧ tgt ≠ [] then (label, tgt) :: mdFindAllFuel fuel rest3
          else mdFindAllFuel fuel rest
        | _ => mdFindAllFuel fuel rest
      | _ => mdFindAllFuel fuel rest
    else mdFindAllFuel fuel rest

/-- All matches of the inline-link regex in a string, left to right. -/
def mdFindAll (l : List Char) : List (List Char × List Char) := mdFindAllFuel l.length l

/-- Embeds `extract_links_from_markdown` (crawler.py lines 205-220). -/
def extract_links_from_markdown (content current_url : String) : List String :=
  (mdFindAll content.data).foldl
    (fun links m =>
      let url : String := ⟨m.2⟩
      if pyStartsWith "http" url then links ++ [url]
      else
        let absolute_link := urljoin current_url url
        if pyStartsWith "http://" absolute_link ∨ pyStartsWith "https://" absolute_link then
          links ++ [absolute_link]
        else links) []

/-! ## The Frontier and the worker loop (crawler.py lines 154-202)

The worker's mutable environment is bundled in `WState`: the FIFO queue,
the `visited` and `url_set` sets (as lists), the output directory (an
association list filename to content, newest first), and the `saved`
counter of `Stats`.  Four instrumentation logs record the events of a
run in order: URLs dequeued, URLs passed to the fetch engine, URLs whose
page was written, and URLs appended to the queue.  The cooperative
interrupt flag of `Stats` is set asynchronously by the SIGINT handler;
the worker reads it at exactly two points per iteration, so a run is
driven by a schedule giving the flag value at each read. -/

structure WState where
  queue : List String
  visited : List String
  url_set : List String
  files : List (String × String)
  saved : Nat
  dequeueLog : List String
  fetchLog : List String
  saveLog : List String
  enqueueLog : List String
deriving Repr

/-- The body of the worker's link loop (crawler.py lines 194-200) for one
discovered link: normalize, truthiness check, scope filter, then offer to
the Frontier (queue and `url_set`) when unseen. -/
def offerLink (base_url url : String) (s : WState) (link : String) : WState :=
  match normalize_url link url with
  | none => s
  | some normalized_link =>
    if normalized_link ≠ "" ∧ is_valid_link normalized_link base_url then
      if normalized_link ∈ s.url_set then s
      else { s with url_set := normalized_link :: s.url_set,
                    queue := s.queue ++ [normalized_link],
                    enqueueLog := s.enqueueLog ++ [normalized_link] }
    else s

/-- The worker's link loop over all links of a fetched page. -/
def offerLinks (base_url url : String) (links : List String) (s : WState) : WState :=
  links.foldl (offerLink base_url url) s

/-- One iteration of the worker's `while` loop body (crawler.py lines
169-200), starting after the loop condition and the boundary interrupt
check: dequeue, skip if visited, mark visited, remember whether the file
exists, fetch, then — under the stats lock — re-check the interrupt flag
(its value at that read is `lockInterrupted`) and save when the file was
absent, and finally offer the discovered links.  The returned Bool is
false exactly when the iteration executed `break`. -/
def workerIter (engine : String → Option FetchResult) (base_url : String)
    (lockInterrupted : Bool) (s : WState) : WState × Bool :=
  match s.queue with
  | [] => (s, false)
  | current_url :: rest =>
    let s1 := { s with queue := rest, dequeueLog := s.dequeueLog ++ [current_url] }
    if current_url ∈ s1.visited then (s1, true)
    else
      let s2 := { s1 with visited := current_url :: s1.visited }
      let file_exists := file_exists_for_url s2.files current_url
      let s3 := { s2 with fetchLog := s2.fetchLog ++ [current_url] }
      match crawl_page engine current_url with
      | none => (s3, true)
      | some (url, content, links) =>
        if lockInterrupted then (s3, false)
        else
          let s4 :=
            if file_exists then s3
            else { s3 with files := (save_page s3.files url content).1,
                           saved := s3.saved + 1,
                           saveLog := s3.saveLog ++ [url] }
          (offerLinks base_url url links s4, true)

/-- The worker's `while` loop (crawler.py lines 165-200), run with `fuel`
remaining iterations.  `intr n` gives the interrupt flag's value at the
two read points of the iteration executed with fuel `n + 1`: first
component at the loop boundary (line 166), second under the stats lock
(line 184). -/
def workerRun (engine : String → Option FetchResult) (base_url : String)
    (intr : Nat → Bool × Bool) : Nat → WState → WState
  | 0, s => s
  | n + 1, s =>
    if s.queue = [] then s
    else if (intr n).1 then s
    else if (workerIter engine base_url (intr n).2 s).2 then
      workerRun engine base_url intr n (workerIter engine base_url (intr n).2 s).1
    else (workerIter engine base_url (intr n).2 s).1

/-! ## Resume seeding (crawler.py lines 223-251 and 263-296) -/

/-- Embeds `populate_queue_from_markdown` (crawler.py lines 223-251):
for each persisted file, recover its source URL from the header and offer
every markdown-extracted link to the initial queue and `url_set`. -/
def populate_queue_from_markdown (files : List (String × String)) (base_url : String)
    (url_set : List String) : List String × List String :=
  files.foldl
    (fun st f =>
      match headerUrl f.2 with
      | some saved_url =>
        if saved_url ≠ "" then
          (extract_links_from_markdown f.2 saved_url).foldl
            (fun st link =>
              match normalize_url link saved_url with
              | some normalized_link =>
                if normalized_link ≠ "" ∧ is_valid_link normalized_link base_url then
                  if normalized_link ∈ st.2 then st
                  else (st.1 ++ [normalized_link], normalized_link :: st.2)
                else st
              | none => st) st
        else st
      | none => st)
    (([] : List String), url_set)

/-- The state `crawl_site` (crawler.py lines 263-302) hands to the worker:
`visited` seeded from the headers of the persisted corpus, `saved` counted
from the existing files, the initial queue populated from the re-extracted
markdown links and then the explicit seed URLs, `url_set` tracking both.
The base URL is `urls[0]` (`(urls.headD "")` here; `crawl_site` returns
early when `urls` is empty). -/
def crawlSiteInit (files : List (String × String)) (urls : List String) : WState :=
  let existing_urls := extract_existing_urls files
  let base_url := urls.headD ""
  let init := populate_queue_from_markdown files base_url []
  let seeded := urls.foldl
    (fun st url => if url ∈ st.2 then st else (st.1 ++ [url], url :: st.2)) init
  { queue := seeded.1
    visited := existing_urls
    url_set := seeded.2
    files := files
    saved := files.length
    dequeueLog := []
    fetchLog := []
    saveLog := []
    enqueueLog := [] }

/-! ## Basic lemmas about the embedding -/

/-- A `foldl` preserves any invariant its step preserves. -/
theorem foldlPreserves {α β : Type} (P : β → Prop) (f : β → α → β)
    (h : ∀ b a, P b → P (f b a)) : ∀ (l : List α) (b : β), P b → P (l.foldl f b)
  | [], _, hb => hb
  | a :: l, b, hb => foldlPreserves P f h l (f b a) (h b a hb)

/-- String append acts as list append on the underlying characters. -/
theorem strDataAppend : ∀ (s t : String), (s ++ t).data = s.data ++ t.data
  | ⟨_⟩, ⟨_⟩ => rfl

/-- Rebuilding a string from its characters is the identity. -/
theorem strEta : ∀ s : String, (⟨s.data⟩ : String) = s
  | ⟨_⟩ => rfl

/-- takeWhile runs past a block of characters that all satisfy the predicate. -/
theorem takeWhileAppendAll {p : Char → Bool} :
    ∀ (l r : List Char), (∀ c ∈ l, p c = true) → (l ++ r).takeWhile p = l ++ r.takeWhile p
  | [], _, _ => rfl
  | c :: l, r, h => by
    have hc : p c = true := h c (List.mem_cons_self c l)
    simp only [List.cons_append, List.takeWhile_cons, hc, if_true]
    rw [takeWhileAppendAll l r (fun x hx => h x (List.mem_cons_of_mem c hx))]

/-- The fetched tuple always carries the requested URL in its first slot. -/
theorem crawl_page_fst (engine : String → Option FetchResult) (url : String)
    (t : String × String × List String) (h : crawl_page engine url = some t) : t.1 = url := by
  unfold crawl_page at h
  cases he : engine url with
  | none => simp only [he] at h; cases h
  | some r =>
    simp only [he] at h
    cases hm : r.markdown with
    | none => simp only [hm] at h; cases h
    | some md =>
      simp only [hm] at h
      by_cases hc : md ≠ "" ∧ 100 < (pyStrip md).length
      · rw [if_pos hc] at h
        cases h
        rfl
      · rw [if_neg hc] at h
        cases h

/-! ## Characterization of one worker iteration

Six mutually exclusive shapes, by the path taken through the loop body. -/

/-- Iteration on an empty queue (unreachable from `workerRun`, which guards
the loop condition): nothing happens. -/
theorem workerIterNil (engine : String → Option FetchResult) (base : String) (il : Bool)
    (s : WState) (hq : s.queue = []) : workerIter engine base il s = (s, false) := by
  unfold workerIter
  rw [hq]

/-- Dequeued URL already visited: only the queue and the dequeue log change. -/
theorem workerIterVisited (engine : String → Option FetchResult) (base : String) (il : Bool)
    (s : WState) (c : String) (rest : List String)
    (hq : s.queue = c :: rest) (hc : c ∈ s.visited) :
    workerIter engine base il s =
      ({ s with queue := rest, dequeueLog := s.dequeueLog ++ [c] }, true) := by
  unfold workerIter
  rw [hq]
  simp only [if_pos hc]

/-- Dequeued URL not yet visited and the fetch fails (engine error, missing
markdown, or insufficient content): mark visited, log the fetch, continue. -/
theorem workerIterFetchFail (engine : String → Option FetchResult) (base : String) (il : Bool)
    (s : WState) (c : String) (rest : List String)
    (hq : s.queue = c :: rest) (hc : c ∉ s.visited) (hcp : crawl_page engine c = none) :
    workerIter engine base il s =
      ({ s with queue := rest, dequeueLog := s.dequeueLog ++ [c],
                visited := c :: s.visited, fetchLog := s.fetchLog ++ [c] }, true) := by
  unfold workerIter
  rw [hq]
  simp only [if_neg hc, hcp]

/-- Successful fetch but the interrupt flag is seen set under the stats lock:
no save, no link expansion, and the loop breaks. -/
theorem workerIterIntr (engine : String → Option FetchResult) (base : String)
    (s : WState) (c : String) (rest : List String) (t : String × String × List String)
    (hq : s.queue = c :: rest) (hc : c ∉ s.visited) (hcp : crawl_page engine c = some t) :
    workerIter engine base true s =
      ({ s with queue := rest, dequeueLog := s.dequeueLog ++ [c],
                visited := c :: s.visited, fetchLog := s.fetchLog ++ [c] }, false) := by
  unfold workerIter
  rw [hq]
  obtain ⟨url, content, links⟩ := t
  simp only [if_neg hc, hcp, if_true]

/-- Successful fetch, not interrupted, file already on disk: no save, links
are offered. -/
theorem workerIterNoSave (engine : String → Option FetchResult) (base : String)
    (s : WState) (c : String) (rest : List String) (t : String × String × List String)
    (hq : s.queue = c :: rest) (hc : c ∉ s.visited) (hcp : crawl_page engine c = some t)
    (hfe : file_exists_for_url s.files c = true) :
    workerIter engine base false s =
      (offerLinks base t.1 t.2.2
        { s with queue := rest, dequeueLog := s.dequeueLog ++ [c],
                 visited := c :: s.visited, fetchLog := s.fetchLog ++ [c] }, true) := by
  unfold workerIter
  rw [hq]
  obtain ⟨url, content, links⟩ := t
  simp only [if_neg hc, hcp, Bool.false_eq_true, if_false, hfe, if_true]

/-- Successful fetch, not interrupted, file absent: the page is written,
`saved` is incremented, links are offered. -/
theorem workerIterSave (engine : String → Option FetchResult) (base : String)
    (s : WState) (c : String) (rest : List String) (t : String × String × List String)
    (hq : s.queue = c :: rest) (hc : c ∉ s.visited) (hcp : crawl_page engine c = some t)
    (hfe : file_exists_for_url s.files c = false) :
    workerIter engine base false s =
      (offerLinks base t.1 t.2.2
        { s with queue := rest, dequeueLog := s.dequeueLog ++ [c],
                 visited := c :: s.visited, fetchLog := s.fetchLog ++ [c],
                 files := (get_filename_from_url t.1, savedFileContent t.1 t.2.1) :: s.files,
                 saved := s.saved + 1, saveLog := s.saveLog ++ [t.1] }, true) := by
  unfold workerIter
  rw [hq]
  obtain ⟨url, content, links⟩ := t
  simp only [if_neg hc, hcp, Bool.false_eq_true, if_false, hfe, save_page]

/-- Offering one link never touches visited, files, saved, or the dequeue,
fetch and save logs. -/
theorem offerLinkFixed (b u : String) (s : WState) (l : String) :
    (offerLink b u s l).visited = s.visited ∧ (offerLink b u s l).files = s.files ∧
    (offerLink b u s l).saved = s.saved ∧ (offerLink b u s l).fetchLog = s.fetchLog ∧
    (offerLink b u s l).saveLog = s.saveLog ∧ (offerLink b u s l).dequeueLog = s.dequeueLog := by
  unfold offerLink
  cases normalize_url l u with
  | none => exact ⟨rfl, rfl, rfl, rfl, rfl, rfl⟩
  | some nl =>
    by_cases h1 : nl ≠ "" ∧ is_valid_link nl b = true
    · simp only [if_pos h1]
      by_cases h2 : nl ∈ s.url_set
      · simp [if_pos h2]
      · simp [if_neg h2]
    · simp [if_neg h1]

/-- Offering one link appends the same (possibly empty) batch to the queue
and to the enqueue log, grows `url_set`, and puts the batch in `url_set`. -/
theorem offerLinkShape (b u : String) (s : WState) (l : String) :
    ∃ add : List String,
      (offerLink b u s l).queue = s.queue ++ add ∧
      (offerLink b u s l).enqueueLog = s.enqueueLog ++ add ∧
      (∀ x ∈ s.url_set, x ∈ (offerLink b u s l).url_set) ∧
      (∀ x ∈ add, x ∈ (offerLink b u s l).url_set) := by
  unfold offerLink
  cases normalize_url l u with
  | none => exact ⟨[], by simp, by simp, fun x hx => hx, by simp⟩
  | some nl =>
    by_cases h1 : nl ≠ "" ∧ is_valid_link nl b = true
    · simp only [if_pos h1]
      by_cases h2 : nl ∈ s.url_set
      · simp only [if_pos h2]
        exact ⟨[], by simp, by simp, fun x hx => hx, by simp⟩
      · simp only [if_neg h2]
        refine ⟨[nl], rfl, rfl, fun x hx => List.mem_cons_of_mem nl hx, ?_⟩
        intro x hx
        rw [List.mem_singleton] at hx
        rw [hx]
        exact List.mem_cons_self nl s.url_set
    · simp only [if_neg h1]
      exact ⟨[], by simp, by simp, fun x hx => hx, by simp⟩

/-- `offerLinkFixed`, lifted to the whole link loop. -/
theorem offerLinksFixed (b u : String) (links : List String) :
    ∀ s : WState,
      (offerLinks b u links s).visited = s.visited ∧ (offerLinks b u links s).files = s.files ∧
      (offerLinks b u links s).saved = s.saved ∧ (offerLinks b u links s).fetchLog = s.fetchLog ∧
      (offerLinks b u links s).saveLog = s.saveLog ∧
      (offerLinks b u links s).dequeueLog = s.dequeueLog := by
  induction links with
  | nil => exact fun s => ⟨rfl, rfl, rfl, rfl, rfl, rfl⟩
  | cons l ls ih =>
    intro s
    have h1 := offerLinkFixed b u s l
    have h2 := ih (offerLink b u s l)
    unfold offerLinks at h2 ⊢
    rw [List.foldl_cons]
    exact ⟨h2.1.trans h1.1, h2.2.1.trans h1.2.1, h2.2.2.1.trans h1.2.2.1,
           h2.2.2.2.1.trans h1.2.2.2.1, h2.2.2.2.2.1.trans h1.2.2.2.2.1,
           h2.2.2.2.2.2.trans h1.2.2.2.2.2⟩

/-- `offerLinkShape`, lifted to the whole link loop. -/
theorem offerLinksShape (b u : String) (links : List String) :
    ∀ s : WState,
      ∃ add : List String,
        (offerLinks b u links s).queue = s.queue ++ add ∧
        (offerLinks b u links s).enqueueLog = s.enqueueLog ++ add ∧
        (∀ x ∈ s.url_set, x ∈ (offerLinks b u links s).url_set) ∧
        (∀ x ∈ add, x ∈ (offerLinks b u links s).url_set) := by
  induction links with
  | nil => exact fun s => ⟨[], by simp [offerLinks], by simp [offerLinks],
      fun x hx => hx, by simp⟩
  | cons l ls ih =>
    intro s
    obtain ⟨a1, hq1, he1, hu1, ha1⟩ := offerLinkShape b u s l
    obtain ⟨a2, hq2, he2, hu2, ha2⟩ := ih (offerLink b u s l)
    unfold offerLinks at hq2 he2 hu2 ha2 ⊢
    rw [List.foldl_cons]
    refine ⟨a1 ++ a2, ?_, ?_, fun x hx => hu2 x (hu1 x hx), ?_⟩
    · rw [hq2, hq1, List.append_assoc]
    · rw [he2, he1, List.append_assoc]
    · intro x hx
      rcases List.mem_append.mp hx with h | h
      · exact hu2 x (ha1 x h)
      · exact ha2 x h

/-- Unfolding equation for a positive-fuel `workerRun` step. -/
theorem workerRunSucc (engine : String → Option FetchResult) (base : String)
    (intr : Nat → Bool × Bool) (n : Nat) (s : WState) :
    workerRun engine base intr (n + 1) s =
      if s.queue = [] then s
      else if (intr n).1 then s
      else if (workerIter engine base (intr n).2 s).2 then
        workerRun engine base intr n (workerIter engine base (intr n).2 s).1
      else (workerIter engine base (intr n).2 s).1 := rfl

/-- A property preserved by every iteration is preserved by a whole run. -/
theorem workerRunPreserves (engine : String → Option FetchResult) (base : String)
    (intr : Nat → Bool × Bool) (P : WState → Prop)
    (h : ∀ (il : Bool) (s : WState), P s → P (workerIter engine base il s).1) :
    ∀ (fuel : Nat) (s : WState), P s → P (workerRun engine base intr fuel s) := by
  intro fuel
  induction fuel with
  | zero => exact fun s hs => hs
  | succ n ih =>
    intro s hs
    rw [workerRunSucc]
    split
    · exact hs
    split
    · exact hs
    split
    · exact ih _ (h _ s hs)
    · exact h _ s hs

/-! ## Invariants preserved by the worker -/

/-- The Frontier invariant, relative to the set `V0` of URLs that `visited`
was seeded with before the run: everything in the queue or ever moved
through it is in `url_set`, and everything visited is in `url_set` unless
it was seeded into `visited` at startup. -/
def frontierInv (V0 : List String) (s : WState) : Prop :=
  (∀ x ∈ s.queue, x ∈ s.url_set) ∧ (∀ x ∈ s.enqueueLog, x ∈ s.url_set) ∧
  (∀ x ∈ s.dequeueLog, x ∈ s.url_set) ∧ (∀ x ∈ s.visited, x ∈ s.url_set ∨ x ∈ V0)

/-- A URL already visited stays visited, is never fetched and never saved,
across one iteration. -/
theorem iterPreservesSkip (engine : String → Option FetchResult) (base : String)
    (il : Bool) (u : String) (s : WState)
    (h : u ∈ s.visited ∧ u ∉ s.fetchLog ∧ u ∉ s.saveLog) :
    u ∈ (workerIter engine base il s).1.visited ∧
    u ∉ (workerIter engine base il s).1.fetchLog ∧
    u ∉ (workerIter engine base il s).1.saveLog := by
  obtain ⟨hv, hf, hs⟩ := h
  rcases hq : s.queue with _ | ⟨c, rest⟩
  · rw [workerIterNil engine base il s hq]; exact ⟨hv, hf, hs⟩
  by_cases hc : c ∈ s.visited
  · rw [workerIterVisited engine base il s c rest hq hc]; exact ⟨hv, hf, hs⟩
  have hcu : c ≠ u := fun he => hc (he ▸ hv)
  have hf2 : u ∉ s.fetchLog ++ [c] := by
    simp only [List.mem_append, List.mem_singleton]
    rintro (h | h)
    · exact hf h
    · exact hcu h.symm
  rcases hcp : crawl_page engine c with _ | t
  · rw [workerIterFetchFail engine base il s c rest hq hc hcp]
    exact ⟨List.mem_cons_of_mem c hv, hf2, hs⟩
  have ht1 : t.1 = c := crawl_page_fst engine c t hcp
  cases il with
  | true =>
    rw [workerIterIntr engine base s c rest t hq hc hcp]
    exact ⟨List.mem_cons_of_mem c hv, hf2, hs⟩
  | false =>
    have hs2 : u ∉ s.saveLog ++ [t.1] := by
      simp only [List.mem_append, List.mem_singleton]
      rintro (h | h)
      · exact hs h
      · exact hcu (ht1 ▸ h.symm)
    by_cases hfe : file_exists_for_url s.files c = true
    · rw [workerIterNoSave engine base s c rest t hq hc hcp hfe]
      obtain ⟨e1, _, _, e4, e5, _⟩ := offerLinksFixed base t.1 t.2.2
        { s with queue := rest, dequeueLog := s.dequeueLog ++ [c],
                 visited := c :: s.visited, fetchLog := s.fetchLog ++ [c] }
      rw [e1, e4, e5]
      exact ⟨List.mem_cons_of_mem c hv, hf2, hs⟩
    · rw [workerIterSave engine base s c rest t hq hc hcp (Bool.not_eq_true _ ▸ hfe)]
      obtain ⟨e1, _, _, e4, e5, _⟩ := offerLinksFixed base t.1 t.2.2
        { s with queue := rest, dequeueLog := s.dequeueLog ++ [c],
                 visited := c :: s.visited, fetchLog := s.fetchLog ++ [c],
                 files := (get_filename_from_url t.1, savedFileContent t.1 t.2.1) :: s.files,
                 saved := s.saved + 1, saveLog := s.saveLog ++ [t.1] }
      rw [e1, e4, e5]
      exact ⟨List.mem_cons_of_mem c hv, hf2, hs2⟩

/-- One iteration preserves the Frontier invariant. -/
theorem iterPreservesFrontier (engine : String → Option FetchResult) (base : String)
    (il : Bool) (V0 : List String) (s : WState) (h : frontierInv V0 s) :
    frontierInv V0 (workerIter engine base il s).1 := by
  obtain ⟨hq0, he0, hd0, hv0⟩ := h
  rcases hq : s.queue with _ | ⟨c, rest⟩
  · rw [workerIterNil engine base il s hq]; exact ⟨hq0, he0, hd0, hv0⟩
  have hcq : c ∈ s.url_set := hq0 c (hq ▸ List.mem_cons_self c rest)
  have hq0r : ∀ x ∈ rest, x ∈ s.url_set := fun x hx => hq0 x (hq ▸ List.mem_cons_of_mem c hx)
  have hd0c : ∀ x ∈ s.dequeueLog ++ [c], x ∈ s.url_set := by
    intro x hx
    rcases List.mem_append.mp hx with h | h
    · exact hd0 x h
    · rw [List.mem_singleton] at h; rw [h]; exact hcq
  have hv0c : ∀ x ∈ c :: s.visited, x ∈ s.url_set ∨ x ∈ V0 := by
    intro x hx
    rcases List.mem_cons.mp hx with h | h
    · rw [h]; exact Or.inl hcq
    · exact hv0 x h
  by_cases hc : c ∈ s.visited
  · rw [workerIterVisited engine base il s c rest hq hc]
    exact ⟨hq0r, he0, hd0c, hv0⟩
  rcases hcp : crawl_page engine c with _ | t
  · rw [workerIterFetchFail engine base il s c rest hq hc hcp]
    exact ⟨hq0r, he0, hd0c, hv0c⟩
  cases il with
  | true =>
    rw [workerIterIntr engine base s c rest t hq hc hcp]
    exact ⟨hq0r, he0, hd0c, hv0c⟩
  | false =>
    by_cases hfe : file_exists_for_url s.files c = true
    · rw [workerIterNoSave engine base s c rest t hq hc hcp hfe]
      obtain ⟨add, a1, a2, a3, a4⟩ := offerLinksShape base t.1 t.2.2
        { s with queue := rest, dequeueLog := s.dequeueLog ++ [c],
                 visited := c :: s.visited, fetchLog := s.fetchLog ++ [c] }
      obtain ⟨e1, _, _, _, _, e6⟩ := offerLinksFixed base t.1 t.2.2
        { s with queue := rest, dequeueLog := s.dequeueLog ++ [c],
                 visited := c :: s.visited, fetchLog := s.fetchLog ++ [c] }
      unfold frontierInv
      dsimp only at a1 a2 e1 e6 ⊢
      rw [a1, a2, e1, e6]
      refine ⟨?_, ?_, fun x hx => a3 x (hd0c x hx), fun x hx => (hv0c x hx).imp (a3 x) id⟩
      · intro x hx
        rcases List.mem_append.mp hx with h | h
        · exact a3 x (hq0r x h)
        · exact a4 x h
      · intro x hx
        rcases List.mem_append.mp hx with h | h
        · exact a3 x (he0 x h)
        · exact a4 x h
    · rw [workerIterSave engine base s c rest t hq hc hcp (Bool.not_eq_true _ ▸ hfe)]
      obtain ⟨add, a1, a2, a3, a4⟩ := offerLinksShape base t.1 t.2.2
        { s with queue := rest, dequeueLog := s.dequeueLog ++ [c],
                 visited := c :: s.visited, fetchLog := s.fetchLog ++ [c],
                 files := (get_filename_from_url t.1, savedFileContent t.1 t.2.1) :: s.files,
                 saved := s.saved + 1, saveLog := s.saveLog ++ [t.1] }
      obtain ⟨e1, _, _, _, _, e6⟩ := offerLinksFixed base t.1 t.2.2
        { s with queue := rest, dequeueLog := s.dequeueLog ++ [c],
                 visited := c :: s.visited, fetchLog := s.fetchLog ++ [c],
                 files := (get_filename_from_url t.1, savedFileContent t.1 t.2.1) :: s.files,
                 saved := s.saved + 1, saveLog := s.saveLog ++ [t.1] }
      unfold frontierInv
      dsimp only at a1 a2 e1 e6 ⊢
      rw [a1, a2, e1, e6]
      refine ⟨?_, ?_, fun x hx => a3 x (hd0c x hx), fun x hx => (hv0c x hx).imp (a3 x) id⟩
      · intro x hx
        rcases List.mem_append.mp hx with h | h
        · exact a3 x (hq0r x h)
        · exact a4 x h
      · intro x hx
        rcases List.mem_append.mp hx with h | h
        · exact a3 x (he0 x h)
        · exact a4 x h

/-- One iteration keeps the fetch log duplicate-free, and inside `visited`. -/
theorem iterPreservesFetchNodup (engine : String → Option FetchResult) (base : String)
    (il : Bool) (s : WState)
    (h : s.fetchLog.Nodup ∧ ∀ x ∈ s.fetchLog, x ∈ s.visited) :
    (workerIter engine base il s).1.fetchLog.Nodup ∧
    ∀ x ∈ (workerIter engine base il s).1.fetchLog, x ∈ (workerIter engine base il s).1.visited := by
  obtain ⟨hnd, hsub⟩ := h
  rcases hq : s.queue with _ | ⟨c, rest⟩
  · rw [workerIterNil engine base il s hq]; exact ⟨hnd, hsub⟩
  by_cases hc : c ∈ s.visited
  · rw [workerIterVisited engine base il s c rest hq hc]; exact ⟨hnd, hsub⟩
  have hcf : c ∉ s.fetchLog := fun hin => hc (hsub c hin)
  have hnd2 : (s.fetchLog ++ [c]).Nodup := by
    refine hnd.append (List.nodup_singleton c) ?_
    intro a ha hb
    rw [List.mem_singleton] at hb
    exact hcf (hb ▸ ha)
  have hsub2 : ∀ x ∈ s.fetchLog ++ [c], x ∈ c :: s.visited := by
    intro x hx
    rcases List.mem_append.mp hx with h | h
    · exact List.mem_cons_of_mem c (hsub x h)
    · rw [List.mem_singleton] at h; rw [h]; exact List.mem_cons_self c s.visited
  rcases hcp : crawl_page engine c with _ | t
  · rw [workerIterFetchFail engine base il s c rest hq hc hcp]
    exact ⟨hnd2, hsub2⟩
  cases il with
  | true =>
    rw [workerIterIntr engine base s c rest t hq hc hcp]
    exact ⟨hnd2, hsub2⟩
  | false =>
    by_cases hfe : file_exists_for_url s.files c = true
    · rw [workerIterNoSave engine base s c rest t hq hc hcp hfe]
      obtain ⟨e1, _, _, e4, _, _⟩ := offerLinksFixed base t.1 t.2.2
        { s with queue := rest, dequeueLog := s.dequeueLog ++ [c],
                 visited := c :: s.visited, fetchLog := s.fetchLog ++ [c] }
      dsimp only at e1 e4 ⊢
      rw [e1, e4]
      exact ⟨hnd2, hsub2⟩
    · rw [workerIterSave engine base s c rest t hq hc hcp (Bool.not_eq_true _ ▸ hfe)]
      obtain ⟨e1, _, _, e4, _, _⟩ := offerLinksFixed base t.1 t.2.2
        { s with queue := rest, dequeueLog := s.dequeueLog ++ [c],
                 visited := c :: s.visited, fetchLog := s.fetchLog ++ [c],
                 files := (get_filename_from_url t.1, savedFileContent t.1 t.2.1) :: s.files,
                 saved := s.saved + 1, saveLog := s.saveLog ++ [t.1] }
      dsimp only at e1 e4 ⊢
      rw [e1, e4]
      exact ⟨hnd2, hsub2⟩

/-- One iteration preserves the FIFO balance: dequeues-so-far plus current
queue equals the original queue plus enqueues-so-far. -/
theorem iterPreservesFifo (engine : String → Option FetchResult) (base : String)
    (il : Bool) (K : List String) (s : WState)
    (h : s.dequeueLog ++ s.queue = K ++ s.enqueueLog) :
    (workerIter engine base il s).1.dequeueLog ++ (workerIter engine base il s).1.queue =
      K ++ (workerIter engine base il s).1.enqueueLog := by
  rcases hq : s.queue with _ | ⟨c, rest⟩
  · rw [workerIterNil engine base il s hq]; exact h
  rw [hq] at h
  have hbal : (s.dequeueLog ++ [c]) ++ rest = K ++ s.enqueueLog := by
    rw [List.append_assoc]
    exact h
  by_cases hc : c ∈ s.visited
  · rw [workerIterVisited engine base il s c rest hq hc]; exact hbal
  rcases hcp : crawl_page engine c with _ | t
  · rw [workerIterFetchFail engine base il s c rest hq hc hcp]; exact hbal
  cases il with
  | true =>
    rw [workerIterIntr engine base s c rest t hq hc hcp]; exact hbal
  | false =>
    by_cases hfe : file_exists_for_url s.files c = true
    · rw [workerIterNoSave engine base s c rest t hq hc hcp hfe]
      obtain ⟨add, a1, a2, _, _⟩ := offerLinksShape base t.1 t.2.2
        { s with queue := rest, dequeueLog := s.dequeueLog ++ [c],
                 visited := c :: s.visited, fetchLog := s.fetchLog ++ [c] }
      obtain ⟨_, _, _, _, _, e6⟩ := offerLinksFixed base t.1 t.2.2
        { s with queue := rest, dequeueLog := s.dequeueLog ++ [c],
                 visited := c :: s.visited, fetchLog := s.fetchLog ++ [c] }
      dsimp only at a1 a2 e6 ⊢
      rw [a1, a2, e6, ← List.append_assoc, hbal, List.append_assoc]
    · rw [workerIterSave engine base s c rest t hq hc hcp (Bool.not_eq_true _ ▸ hfe)]
      obtain ⟨add, a1, a2, _, _⟩ := offerLinksShape base t.1 t.2.2
        { s with queue := rest, dequeueLog := s.dequeueLog ++ [c],
                 visited := c :: s.visited, fetchLog := s.fetchLog ++ [c],
                 files := (get_filename_from_url t.1, savedFileContent t.1 t.2.1) :: s.files,
                 saved := s.saved + 1, saveLog := s.saveLog ++ [t.1] }
      obtain ⟨_, _, _, _, _, e6⟩ := offerLinksFixed base t.1 t.2.2
        { s with queue := rest, dequeueLog := s.dequeueLog ++ [c],
                 visited := c :: s.visited, fetchLog := s.fetchLog ++ [c],
                 files := (get_filename_from_url t.1, savedFileContent t.1 t.2.1) :: s.files,
                 saved := s.saved + 1, saveLog := s.saveLog ++ [t.1] }
      dsimp only at a1 a2 e6 ⊢
      rw [a1, a2, e6, ← List.append_assoc, hbal, List.append_assoc]

/-- The filenames present in the output directory. -/
def fileNames (files : List (String × String)) : List String := files.map Prod.fst

/-- Unfolding `fileNames` over a newly written file. -/
theorem fileNamesCons (n c : String) (fs : List (String × String)) :
    fileNames ((n, c) :: fs) = n :: fileNames fs := rfl

/-- A false file-existence check means the filename is not on disk. -/
theorem fileAbsent (files : List (String × String)) (url : String)
    (h : file_exists_for_url files url = false) :
    get_filename_from_url url ∉ fileNames files := by
  intro hin
  unfold fileNames at hin
  obtain ⟨pr, hpr, hfst⟩ := List.mem_map.mp hin
  unfold file_exists_for_url at h
  rw [List.any_eq_false] at h
  exact h pr hpr (by simp [hfst])

/-- Does a save-log entry name one of the two given URLs? -/
def saveMatches (u1 u2 x : String) : Bool := x = u1 || x = u2

/-- One iteration preserves: among two URLs with the same filename, at most
one save has happened, and once one has, that filename is on disk. -/
theorem iterPreservesSingleSave (engine : String → Option FetchResult) (base : String)
    (il : Bool) (u1 u2 : String) (h12 : get_filename_from_url u1 = get_filename_from_url u2)
    (s : WState)
    (h : s.saveLog.countP (saveMatches u1 u2) ≤ 1 ∧
      (1 ≤ s.saveLog.countP (saveMatches u1 u2) →
        get_filename_from_url u1 ∈ fileNames s.files)) :
    (workerIter engine base il s).1.saveLog.countP (saveMatches u1 u2) ≤ 1 ∧
    (1 ≤ (workerIter engine base il s).1.saveLog.countP (saveMatches u1 u2) →
      get_filename_from_url u1 ∈ fileNames (workerIter engine base il s).1.files) := by
  obtain ⟨hcnt, himp⟩ := h
  rcases hq : s.queue with _ | ⟨c, rest⟩
  · rw [workerIterNil engine base il s hq]; exact ⟨hcnt, himp⟩
  by_cases hc : c ∈ s.visited
  · rw [workerIterVisited engine base il s c rest hq hc]; exact ⟨hcnt, himp⟩
  rcases hcp : crawl_page engine c with _ | t
  · rw [workerIterFetchFail engine base il s c rest hq hc hcp]; exact ⟨hcnt, himp⟩
  have ht1 : t.1 = c := crawl_page_fst engine c t hcp
  cases il with
  | true =>
    rw [workerIterIntr engine base s c rest t hq hc hcp]; exact ⟨hcnt, himp⟩
  | false =>
    by_cases hfe : file_exists_for_url s.files c = true
    · rw [workerIterNoSave engine base s c rest t hq hc hcp hfe]
      obtain ⟨_, e2, _, _, e5, _⟩ := offerLinksFixed base t.1 t.2.2
        { s with queue := rest, dequeueLog := s.dequeueLog ++ [c],
                 visited := c :: s.visited, fetchLog := s.fetchLog ++ [c] }
      dsimp only at e2 e5 ⊢
      rw [e2, e5]
      exact ⟨hcnt, himp⟩
    · have hfe2 : file_exists_for_url s.files c = false := Bool.not_eq_true _ ▸ hfe
      rw [workerIterSave engine base s c rest t hq hc hcp hfe2]
      obtain ⟨_, e2, _, _, e5, _⟩ := offerLinksFixed base t.1 t.2.2
        { s with queue := rest, dequeueLog := s.dequeueLog ++ [c],
                 visited := c :: s.visited, fetchLog := s.fetchLog ++ [c],
                 files := (get_filename_from_url t.1, savedFileContent t.1 t.2.1) :: s.files,
                 saved := s.saved + 1, saveLog := s.saveLog ++ [t.1] }
      dsimp only at e2 e5 ⊢
      rw [e2, e5, ht1]
      have hsplit : (s.saveLog ++ [c]).countP (saveMatches u1 u2) =
          s.saveLog.countP (saveMatches u1 u2) +
            (if saveMatches u1 u2 c = true then 1 else 0) := by
        rw [List.countP_append, List.countP_cons, List.countP_nil, Nat.zero_add]
      by_cases hp : saveMatches u1 u2 c = true
      · have hcu : get_filename_from_url c = get_filename_from_url u1 := by
          rcases Bool.or_eq_true_iff.mp hp with h | h
          · rw [decide_eq_true_iff] at h
            rw [h]
          · rw [decide_eq_true_iff] at h
            rw [h, h12]
        have hzero : s.saveLog.countP (saveMatches u1 u2) = 0 := by
          by_contra hnz
          have h1 : 1 ≤ s.saveLog.countP (saveMatches u1 u2) :=
            Nat.one_le_iff_ne_zero.mpr hnz
          have habs := fileAbsent s.files c hfe2
          rw [hcu] at habs
          exact habs (himp h1)
        rw [hsplit, hzero, if_pos hp, Nat.zero_add]
        refine ⟨Nat.le_refl 1, fun _ => ?_⟩
        rw [fileNamesCons, hcu]
        exact List.mem_cons_self _ _
      · rw [hsplit, if_neg hp, Nat.add_zero]
        refine ⟨hcnt, fun hle => ?_⟩
        rw [fileNamesCons]
        exact List.mem_cons_of_mem _ (himp hle)

/-- The projections of the state `crawl_site` builds. -/
theorem crawlSiteInitFields (files : List (String × String)) (urls : List String) :
    (crawlSiteInit files urls).visited = extract_existing_urls files ∧
    (crawlSiteInit files urls).dequeueLog = [] ∧
    (crawlSiteInit files urls).fetchLog = [] ∧
    (crawlSiteInit files urls).saveLog = [] ∧
    (crawlSiteInit files urls).enqueueLog = [] :=
  ⟨rfl, rfl, rfl, rfl, rfl⟩

/-- Every URL the seeding phase puts in the initial queue is recorded in
`url_set`. -/
theorem seedQueueSub (files : List (String × String)) (urls : List String) :
    ∀ x ∈ (crawlSiteInit files urls).queue, x ∈ (crawlSiteInit files urls).url_set := by
  unfold crawlSiteInit
  dsimp only
  have hpop : ∀ x ∈ (populate_queue_from_markdown files (urls.headD "") []).1,
      x ∈ (populate_queue_from_markdown files (urls.headD "") []).2 := by
    unfold populate_queue_from_markdown
    refine foldlPreserves (fun st => ∀ x ∈ st.1, x ∈ st.2) _ ?_ files ([], []) ?_
    case refine_2 => simp
    intro st f hst
    dsimp only
    cases headerUrl f.2 with
    | none => exact hst
    | some saved_url =>
      dsimp only
      by_cases hsu : saved_url ≠ ""
      · rw [if_pos hsu]
        refine foldlPreserves (fun st => ∀ x ∈ st.1, x ∈ st.2) _ ?_ _ st hst
        intro st2 link hst2
        dsimp only
        cases normalize_url link saved_url with
        | none => exact hst2
        | some nl =>
          dsimp only
          by_cases hv : nl ≠ "" ∧ is_valid_link nl (urls.headD "") = true
          · rw [if_pos hv]
            by_cases hmem : nl ∈ st2.2
            · rw [if_pos hmem]; exact hst2
            · rw [if_neg hmem]
              intro x hx
              rcases List.mem_append.mp hx with h | h
              · exact List.mem_cons_of_mem _ (hst2 x h)
              · rw [List.mem_singleton] at h; rw [h]; exact List.mem_cons_self _ _
          · rw [if_neg hv]; exact hst2
      · rw [if_neg hsu]; exact hst
  refine foldlPreserves (fun st : List String × List String => ∀ x ∈ st.1, x ∈ st.2)
    _ ?_ urls (populate_queue_from_markdown files (urls.headD "") []) hpop
  intro st url hst
  dsimp only
  by_cases hmem : url ∈ st.2
  · rw [if_pos hmem]; exact hst
  · rw [if_neg hmem]
    intro x hx
    rcases List.mem_append.mp hx with h | h
    · exact List.mem_cons_of_mem _ (hst x h)
    · rw [List.mem_singleton] at h; rw [h]; exact List.mem_cons_self _ _

/-! ## A concrete crawl scenario (for the breadth-first property)

A four-page site: the seed links to depth-1 pages `a` and `b`; a depth-2
page `c` is reachable only through `a`.  Every page renders to 101
characters of content, so each fetch succeeds. -/

/-- A rendered body longer than the 100-character threshold. -/
def bfsContent : String := ⟨List.replicate 101 'x'⟩

/-- Fetch engine for the four-page site. -/
def bfsEngine : String → Option FetchResult := fun u =>
  if u = "http://e.com/seed" then
    some ⟨some bfsContent, none, ["http://e.com/a", "http://e.com/b"]⟩
  else if u = "http://e.com/a" then
    some ⟨some bfsContent, none, ["http://e.com/c"]⟩
  else if u = "http://e.com/b" then
    some ⟨some bfsContent, none, []⟩
  else if u = "http://e.com/c" then
    some ⟨some bfsContent, none, []⟩
  else none

/-- An interrupt schedule on which SIGINT never arrives. -/
def noInterrupt : Nat → Bool × Bool := fun _ => (false, false)

/-- Fresh crawl state for the four-page site (no persisted corpus). -/
def bfsInit : WState :=
  { queue := ["http://e.com/seed"], visited := [], url_set := ["http://e.com/seed"],
    files := [], saved := 0, dequeueLog := [], fetchLog := [], saveLog := [],
    enqueueLog := [] }

/-! ## The claims -/

/-- C1: every URL recovered from the header line of a persisted document at
startup is seeded into `visited`, and a re-run of the crawl over the same
output never passes it to the fetch engine and never writes a file for it:
the worker skips any dequeued URL already in the visited set before
fetching. -/
theorem resume_never_refetches (engine : String → Option FetchResult)
    (intr : Nat → Bool × Bool) (fuel : Nat) (files : List (String × String))
    (urls : List String) (u : String) (hu : u ∈ extract_existing_urls files) :
    u ∉ (workerRun engine (urls.headD "") intr fuel (crawlSiteInit files urls)).fetchLog ∧
    u ∉ (workerRun engine (urls.headD "") intr fuel (crawlSiteInit files urls)).saveLog := by
  obtain ⟨hv, _, hf, hs, _⟩ := crawlSiteInitFields files urls
  have h := workerRunPreserves engine (urls.headD "") intr
    (fun s => u ∈ s.visited ∧ u ∉ s.fetchLog ∧ u ∉ s.saveLog)
    (fun il s hs => iterPreservesSkip engine (urls.headD "") il u s hs)
    fuel (crawlSiteInit files urls)
    ⟨hv ▸ hu, hf ▸ List.not_mem_nil u, hs ▸ List.not_mem_nil u⟩
  exact ⟨h.2.1, h.2.2⟩

/-- Witness for C1 at a concrete corpus: one persisted file for
`http://e.com/a`, a fetch engine that would answer for it, ten iterations. -/
theorem resume_never_refetches_witness :
    "http://e.com/a" ∉ (workerRun bfsEngine
      (["http://e.com/b"].headD "") noInterrupt 10
      (crawlSiteInit [("a.md", "# http://e.com/a\n\nbody")] ["http://e.com/b"])).fetchLog ∧
    "http://e.com/a" ∉ (workerRun bfsEngine
      (["http://e.com/b"].headD "") noInterrupt 10
      (crawlSiteInit [("a.md", "# http://e.com/a\n\nbody")] ["http://e.com/b"])).saveLog :=
  resume_never_refetches bfsEngine noInterrupt 10
    [("a.md", "# http://e.com/a\n\nbody")] ["http://e.com/b"] "http://e.com/a" (by decide)

/-- C2 counterexample: right after `crawl_site` seeds the state from a
persisted corpus, `visited` (recovered from file headers) need not be a
subset of `url_set` (which only receives re-extracted links and seed URLs):
with one persisted page `http://e.com/a` whose body has no links, and seed
`http://e.com/b`, the URL `http://e.com/a` is in `visited` but not in
`url_set`. -/
theorem frontier_invariant_fails_at_seeding :
    ¬ (∀ x ∈ (crawlSiteInit [("a.md", "# http://e.com/a\n\nbody")] ["http://e.com/b"]).visited,
        x ∈ (crawlSiteInit [("a.md", "# http://e.com/a\n\nbody")] ["http://e.com/b"]).url_set) := by
  decide

/-- C2 (amended): the invariant that holds is `visited ⊆ url_set ∪ V0`,
where `V0` is the set of URLs recovered from the persisted corpus, together
with "everything in the queue, or ever moved through it, is in url_set".
It holds right after `crawl_site` seeds the state (where `visited = V0`),
is preserved by every worker iteration, and therefore holds at every point
of every run. -/
theorem frontier_invariant_amended :
    (∀ (files : List (String × String)) (urls : List String),
        frontierInv (extract_existing_urls files) (crawlSiteInit files urls) ∧
        (crawlSiteInit files urls).visited = extract_existing_urls files) ∧
    (∀ (engine : String → Option FetchResult) (base : String) (il : Bool)
        (V0 : List String) (s : WState),
        frontierInv V0 s → frontierInv V0 (workerIter engine base il s).1) ∧
    (∀ (engine : String → Option FetchResult) (base : String)
        (intr : Nat → Bool × Bool) (fuel : Nat) (V0 : List String) (s : WState),
        frontierInv V0 s → frontierInv V0 (workerRun engine base intr fuel s)) := by
  refine ⟨fun files urls => ?_, fun engine base il V0 s h =>
    iterPreservesFrontier engine base il V0 s h,
    fun engine base intr fuel V0 s h => workerRunPreserves engine base intr
      (frontierInv V0) (fun il s hs => iterPreservesFrontier engine base il V0 s hs) fuel s h⟩
  obtain ⟨hv, hd, _, _, he⟩ := crawlSiteInitFields files urls
  refine ⟨⟨seedQueueSub files urls, ?_, ?_, ?_⟩, hv⟩
  · rw [he]; intro x hx; cases hx
  · rw [hd]; intro x hx; cases hx
  · rw [hv]; intro x hx; exact Or.inr hx

/-- Witness for C2's amended invariant preservation at a concrete state. -/
theorem frontier_invariant_amended_witness :
    frontierInv [] (workerIter bfsEngine "http://e.com/seed" false bfsInit).1 ∧
    frontierInv [] (workerRun bfsEngine "http://e.com/seed" noInterrupt 10 bfsInit) :=
  ⟨frontier_invariant_amended.2.1 bfsEngine "http://e.com/seed" false [] bfsInit
    (by unfold frontierInv; decide),
   frontier_invariant_amended.2.2 bfsEngine "http://e.com/seed" noInterrupt 10 [] bfsInit
    (by unfold frontierInv; decide)⟩

/-- C6: within one run started from the `crawl_site` seeding, no URL is
passed to the fetch engine more than once: the `url_set` check before
enqueuing and the visited-set check after dequeuing bound the number of
`crawl_page` calls for any URL by one. -/
theorem no_url_fetched_twice (engine : String → Option FetchResult)
    (intr : Nat → Bool × Bool) (fuel : Nat) (files : List (String × String))
    (urls : List String) (u : String) :
    (workerRun engine (urls.headD "") intr fuel (crawlSiteInit files urls)).fetchLog.count u ≤ 1 := by
  obtain ⟨_, _, hf, _, _⟩ := crawlSiteInitFields files urls
  have h := workerRunPreserves engine (urls.headD "") intr
    (fun s => s.fetchLog.Nodup ∧ ∀ x ∈ s.fetchLog, x ∈ s.visited)
    (fun il s hs => iterPreservesFetchNodup engine (urls.headD "") il s hs)
    fuel (crawlSiteInit files urls)
    ⟨hf ▸ List.nodup_nil, hf ▸ fun x hx => absurd hx (List.not_mem_nil x)⟩
  exact List.nodup_iff_count_le_one.mp h.1 u

/-- C7: FIFO discharge — over any run, the dequeue order extended by the
remaining queue equals the initial queue extended by the enqueue order
(links enqueued only after their page's fetch completed); and in the
concrete four-page site, the depth-2 page `c` (reachable only via `a`) is
dequeued and fetched only after both depth-1 pages `a` and `b`. -/
theorem breadth_first_order :
    (∀ (engine : String → Option FetchResult) (base : String)
        (intr : Nat → Bool × Bool) (fuel : Nat) (s : WState),
        s.dequeueLog = [] → s.enqueueLog = [] →
        (workerRun engine base intr fuel s).dequeueLog ++
            (workerRun engine base intr fuel s).queue =
          s.queue ++ (workerRun engine base intr fuel s).enqueueLog) ∧
    ((workerRun bfsEngine "http://e.com/seed" noInterrupt 10 bfsInit).dequeueLog =
        ["http://e.com/seed", "http://e.com/a", "http://e.com/b", "http://e.com/c"] ∧
      (workerRun bfsEngine "http://e.com/seed" noInterrupt 10 bfsInit).fetchLog =
        ["http://e.com/seed", "http://e.com/a", "http://e.com/b", "http://e.com/c"]) := by
  constructor
  · intro engine base intr fuel s hd he
    have h := workerRunPreserves engine base intr
      (fun t => t.dequeueLog ++ t.queue = s.queue ++ t.enqueueLog)
      (fun il t ht => iterPreservesFifo engine base il s.queue t ht)
      fuel s (by show s.dequeueLog ++ s.queue = s.queue ++ s.enqueueLog
                 rw [hd, he, List.nil_append, List.append_nil])
    exact h
  · exact ⟨by decide, by decide⟩

/-- Witness for C7's FIFO part on the concrete four-page site. -/
theorem breadth_first_order_witness :
    (workerRun bfsEngine "http://e.com/seed" noInterrupt 10 bfsInit).dequeueLog ++
        (workerRun bfsEngine "http://e.com/seed" noInterrupt 10 bfsInit).queue =
      bfsInit.queue ++
        (workerRun bfsEngine "http://e.com/seed" noInterrupt 10 bfsInit).enqueueLog :=
  breadth_first_order.1 bfsEngine "http://e.com/seed" noInterrupt 10 bfsInit rfl rfl

/-- C8: when the fetch engine raises, or the rendered markdown is absent,
or its stripped length is at most 100, `crawl_page` yields nothing; the
iteration writes no file, offers no link, leaves url_set, saved and the
save log untouched, marks the URL visited, and the loop continues with the
next queued URL — an engine error never terminates the worker loop. -/
theorem fetch_failure_skips (engine : String → Option FetchResult) (base : String)
    (il : Bool) (s : WState) (c : String) (rest : List String)
    (hq : s.queue = c :: rest) (hc : c ∉ s.visited)
    (hfail : engine c = none ∨ ∃ r, engine c = some r ∧
      (r.markdown = none ∨ ∃ md, r.markdown = some md ∧ (pyStrip md).length ≤ 100)) :
    crawl_page engine c = none ∧
    (workerIter engine base il s).2 = true ∧
    (workerIter engine base il s).1.files = s.files ∧
    (workerIter engine base il s).1.saveLog = s.saveLog ∧
    (workerIter engine base il s).1.saved = s.saved ∧
    (workerIter engine base il s).1.enqueueLog = s.enqueueLog ∧
    (workerIter engine base il s).1.url_set = s.url_set ∧
    (workerIter engine base il s).1.queue = rest ∧
    (workerIter engine base il s).1.visited = c :: s.visited := by
  have hcp : crawl_page engine c = none := by
    unfold crawl_page
    rcases hfail with h | ⟨r, hr, hmd⟩
    · simp only [h]
    · simp only [hr]
      rcases hmd with h | ⟨md, hmd, hlen⟩
      · simp only [h]
      · simp only [hmd]
        rw [if_neg]
        intro hand
        exact absurd hand.2 (Nat.not_lt.mpr hlen)
  rw [workerIterFetchFail engine base il s c rest hq hc hcp]
  exact ⟨hcp, rfl, rfl, rfl, rfl, rfl, rfl, rfl, rfl⟩

/-- Witness for C8: a one-URL queue whose fetch errors out. -/
theorem fetch_failure_skips_witness :
    crawl_page (fun _ => none) "http://e.com/x" = none ∧
    (workerIter (fun _ => none) "http://e.com/seed" false bfsInit).2 = true ∧
    (workerIter (fun _ => none) "http://e.com/seed" false bfsInit).1.files = bfsInit.files ∧
    (workerIter (fun _ => none) "http://e.com/seed" false bfsInit).1.saveLog = bfsInit.saveLog ∧
    (workerIter (fun _ => none) "http://e.com/seed" false bfsInit).1.saved = bfsInit.saved ∧
    (workerIter (fun _ => none) "http://e.com/seed" false bfsInit).1.enqueueLog = bfsInit.enqueueLog ∧
    (workerIter (fun _ => none) "http://e.com/seed" false bfsInit).1.url_set = bfsInit.url_set ∧
    (workerIter (fun _ => none) "http://e.com/seed" false bfsInit).1.queue = [] ∧
    (workerIter (fun _ => none) "http://e.com/seed" false bfsInit).1.visited =
      "http://e.com/seed" :: bfsInit.visited := by
  have h := fetch_failure_skips (fun _ => none) "http://e.com/seed" false bfsInit
    "http://e.com/seed" [] (by decide) (by decide) (Or.inl rfl)
  exact ⟨rfl, h.2.1, h.2.2.1, h.2.2.2.1, h.2.2.2.2.1, h.2.2.2.2.2.1,
    h.2.2.2.2.2.2.1, h.2.2.2.2.2.2.2.1, h.2.2.2.2.2.2.2.2⟩

/-- C9: if the interrupt flag is set when the worker re-checks it under the
stats lock after a successful fetch, no file is written for that page,
`saved` is not incremented, the save log is unchanged, and the iteration
breaks; and whenever an iteration breaks — there or at the loop boundary —
the run ends in exactly that state, so no further file is ever written. -/
theorem interrupt_stops_without_saving :
    (∀ (engine : String → Option FetchResult) (base : String) (s : WState)
        (c : String) (rest : List String) (t : String × String × List String),
        s.queue = c :: rest → c ∉ s.visited → crawl_page engine c = some t →
        (workerIter engine base true s).2 = false ∧
        (workerIter engine base true s).1.files = s.files ∧
        (workerIter engine base true s).1.saved = s.saved ∧
        (workerIter engine base true s).1.saveLog = s.saveLog ∧
        (workerIter engine base true s).1.enqueueLog = s.enqueueLog) ∧
    (∀ (engine : String → Option FetchResult) (base : String)
        (intr : Nat → Bool × Bool) (n : Nat) (s : WState),
        ¬ s.queue = [] → (intr n).1 = false →
        (workerIter engine base (intr n).2 s).2 = false →
        workerRun engine base intr (n + 1) s = (workerIter engine base (intr n).2 s).1) ∧
    (∀ (engine : String → Option FetchResult) (base : String)
        (intr : Nat → Bool × Bool) (n : Nat) (s : WState),
        ¬ s.queue = [] → (intr n).1 = true →
        workerRun engine base intr (n + 1) s = s) := by
  refine ⟨?_, ?_, ?_⟩
  · intro engine base s c rest t hq hc hcp
    rw [workerIterIntr engine base s c rest t hq hc hcp]
    exact ⟨rfl, rfl, rfl, rfl, rfl⟩
  · intro engine base intr n s hq hb hit
    rw [workerRunSucc, if_neg hq, if_neg (by rw [hb]; exact Bool.false_ne_true),
      if_neg (by rw [hit]; exact Bool.false_ne_true)]
  · intro engine base intr n s hq hb
    rw [workerRunSucc, if_neg hq, if_pos hb]

/-- Witness for C9 at the four-page site: interrupt observed under the lock
on the first iteration, and at the boundary of another run. -/
theorem interrupt_stops_without_saving_witness :
    ((workerIter bfsEngine "http://e.com/seed" true bfsInit).2 = false ∧
     (workerIter bfsEngine "http://e.com/seed" true bfsInit).1.files = bfsInit.files ∧
     (workerIter bfsEngine "http://e.com/seed" true bfsInit).1.saved = bfsInit.saved ∧
     (workerIter bfsEngine "http://e.com/seed" true bfsInit).1.saveLog = bfsInit.saveLog ∧
     (workerIter bfsEngine "http://e.com/seed" true bfsInit).1.enqueueLog = bfsInit.enqueueLog) ∧
    workerRun bfsEngine "http://e.com/seed" (fun _ => (false, true)) 1 bfsInit =
      (workerIter bfsEngine "http://e.com/seed" true bfsInit).1 ∧
    workerRun bfsEngine "http://e.com/seed" (fun _ => (true, true)) 1 bfsInit = bfsInit := by
  refine ⟨interrupt_stops_without_saving.1 bfsEngine "http://e.com/seed" bfsInit
      "http://e.com/seed" [] ("http://e.com/seed", bfsContent,
        extract_all_links ⟨some bfsContent, none, ["http://e.com/a", "http://e.com/b"]⟩
          "http://e.com/seed")
      rfl (by decide) (by decide), ?_, ?_⟩
  · exact interrupt_stops_without_saving.2.1 bfsEngine "http://e.com/seed"
      (fun _ => (false, true)) 0 bfsInit (by decide) rfl (by decide)
  · exact interrupt_stops_without_saving.2.2 bfsEngine "http://e.com/seed"
      (fun _ => (true, true)) 0 bfsInit (by decide) rfl

/-- C10: `get_filename_from_url` is not injective — two URLs differing only
in their query string share one filename — and within one run at most one
of any two filename-colliding URLs is ever persisted, because the
file-existence check taken before each save suppresses the later one. -/
theorem filename_collision :
    (("http://e.com/a?x=1" : String) ≠ "http://e.com/a?x=2" ∧
      get_filename_from_url "http://e.com/a?x=1" = get_filename_from_url "http://e.com/a?x=2") ∧
    (∀ (engine : String → Option FetchResult) (base : String)
        (intr : Nat → Bool × Bool) (fuel : Nat) (s : WState) (u1 u2 : String),
        get_filename_from_url u1 = get_filename_from_url u2 → s.saveLog = [] →
        (workerRun engine base intr fuel s).saveLog.countP (saveMatches u1 u2) ≤ 1) := by
  refine ⟨⟨by decide, by decide⟩, ?_⟩
  intro engine base intr fuel s u1 u2 h12 hsl
  have h := workerRunPreserves engine base intr
    (fun t => t.saveLog.countP (saveMatches u1 u2) ≤ 1 ∧
      (1 ≤ t.saveLog.countP (saveMatches u1 u2) →
        get_filename_from_url u1 ∈ fileNames t.files))
    (fun il t ht => iterPreservesSingleSave engine base il u1 u2 h12 t ht)
    fuel s (by
      show s.saveLog.countP (saveMatches u1 u2) ≤ 1 ∧
        (1 ≤ s.saveLog.countP (saveMatches u1 u2) →
          get_filename_from_url u1 ∈ fileNames s.files)
      rw [hsl]
      exact ⟨by simp, by simp⟩)
  exact h.1

/-- Witness for C10 on the four-page site with the two colliding URLs. -/
theorem filename_collision_witness :
    (workerRun bfsEngine "http://e.com/seed" noInterrupt 10 bfsInit).saveLog.countP
      (saveMatches "http://e.com/a?x=1" "http://e.com/a?x=2") ≤ 1 :=
  filename_collision.2 bfsEngine "http://e.com/seed" noInterrupt 10 bfsInit
    "http://e.com/a?x=1" "http://e.com/a?x=2" (by decide) rfl

/-- The extension rule as the claim states it: a case-insensitive *suffix*
match of a blocked extension against the path. -/
def rejectsByExtensionSuffix (path : String) : Bool :=
  file_exts.any (fun e => pyEndsWith e (pyLower path))

/-- C3 counterexample: the code's extension rule is a substring test, not a
suffix test.  `http://e.com/data.json` has path `/data.json`, which ends in
no blocked extension, yet `is_valid_link` rejects it because `.js` occurs
inside `.json`; the same URL without the extension is accepted, so the
rejection is on account of the extension rule. -/
theorem extension_filter_substring_counterexample :
    (urlparse "http://e.com/data.json").path = "/data.json" ∧
    rejectsByExtensionSuffix (pyStrip "/data.json") = false ∧
    rejectsByExtension (pyStrip "/data.json") = true ∧
    is_valid_link "http://e.com/data.json" "http://e.com/docs" = false ∧
    is_valid_link "http://e.com/data" "http://e.com/docs" = true := by
  refine ⟨by decide, by decide, by decide, by decide, by decide⟩

/-- C3 (amended): when every other rejection reason is absent (host matches
and is nonempty, stripped path nontrivial, no `javascript:`/`mailto:`),
`is_valid_link` rejects exactly when some blocked extension occurs as a
*substring* of the lowercased stripped path — not merely as a suffix. -/
theorem extension_filter_substring (url base_url : String)
    (h1 : (urlparse url).netloc ≠ "")
    (h2 : (urlparse url).netloc = (urlparse base_url).netloc)
    (h3 : pyStrip (urlparse url).path ≠ "")
    (h4 : pyStrip (urlparse url).path ≠ "/")
    (h5 : pyStrip (urlparse url).path ≠ "/#")
    (h6 : pyStrip (urlparse url).path ≠ "#")
    (h7 : pyIn "javascript:" (pyLower url) = false)
    (h8 : pyIn "mailto:" (pyLower url) = false) :
    (is_valid_link url base_url = false ↔
      rejectsByExtension (pyStrip (urlparse url).path) = true) := by
  unfold is_valid_link
  dsimp only
  rw [if_neg (by rintro (h | h); exacts [h1 h, h h2])]
  rw [if_neg (by rintro (h | h | h | h); exacts [h3 h, h4 h, h5 h, h6 h])]
  rw [if_neg (by rintro (h | h)
                 exacts [Bool.false_ne_true (h7 ▸ h), Bool.false_ne_true (h8 ▸ h)])]
  by_cases hre : rejectsByExtension (pyStrip (urlparse url).path) = true
  · rw [if_pos hre]
    simp [hre]
  · rw [if_neg hre]
    simp [hre]

/-- Witness for C3's amended rule: the asset URL `http://e.com/a.pdf` passes
every other check and is rejected exactly by the substring rule. -/
theorem extension_filter_substring_witness :
    is_valid_link "http://e.com/a.pdf" "http://e.com/docs" = false ↔
      rejectsByExtension (pyStrip (urlparse "http://e.com/a.pdf").path) = true :=
  extension_filter_substring "http://e.com/a.pdf" "http://e.com/docs"
    (by decide) (by decide) (by decide) (by decide) (by decide) (by decide)
    (by decide) (by decide)

/-- What the markdown extractor emits for one regex match: the target
literally when it starts with `http`, otherwise its resolution against the
page URL when that resolution is an http(s) URL, otherwise nothing. -/
def mdResolve (current_url : String) (m : List Char × List Char) : Option String :=
  let url : String := ⟨m.2⟩
  if pyStartsWith "http" url then some url
  else
    let absolute_link := urljoin current_url url
    if pyStartsWith "http://" absolute_link ∨ pyStartsWith "https://" absolute_link then
      some absolute_link
    else none

/-- The html extractor's loop resolves every href with urljoin, in order. -/
theorem htmlFoldResolve (u : String) :
    ∀ (hrefs : List String) (init : List String),
      hrefs.foldl (fun links href => links ++ [urljoin u href]) init =
        init ++ hrefs.map (urljoin u)
  | [], init => by simp
  | h :: t, init => by
    rw [List.foldl_cons, htmlFoldResolve u t (init ++ [urljoin u h]), List.map_cons,
      List.append_assoc, List.singleton_append]

/-- The markdown extractor's loop emits `mdResolve` of each match, in order. -/
theorem mdFoldResolve (u : String) :
    ∀ (ms : List (List Char × List Char)) (init : List String),
      ms.foldl
        (fun links m =>
          let url : String := ⟨m.2⟩
          if pyStartsWith "http" url then links ++ [url]
          else
            let absolute_link := urljoin u url
            if pyStartsWith "http://" absolute_link ∨ pyStartsWith "https://" absolute_link then
              links ++ [absolute_link]
            else links) init = init ++ ms.filterMap (mdResolve u)
  | [], init => by simp
  | m :: t, init => by
    rw [List.foldl_cons, List.filterMap_cons]
    dsimp only
    by_cases h1 : pyStartsWith "http" (⟨m.2⟩ : String) = true
    · rw [if_pos h1, mdFoldResolve u t (init ++ [(⟨m.2⟩ : String)])]
      unfold mdResolve
      dsimp only
      rw [if_pos h1, List.append_assoc, List.singleton_append]
    · rw [if_neg h1]
      by_cases h2 : pyStartsWith "http://" (urljoin u ⟨m.2⟩) = true ∨
          pyStartsWith "https://" (urljoin u ⟨m.2⟩) = true
      · rw [if_pos h2, mdFoldResolve u t (init ++ [urljoin u ⟨m.2⟩])]
        unfold mdResolve
        dsimp only
        rw [if_neg h1, if_pos h2, List.append_assoc, List.singleton_append]
      · rw [if_neg h2, mdFoldResolve u t init]
        unfold mdResolve
        dsimp only
        rw [if_neg h1, if_neg h2]

/-- C4 counterexample: neither extraction mode returns link targets
literally.  The html mode resolves the relative href `/a` found on
`http://e.com/b` to `http://e.com/a` and does not output `/a`; the markdown
mode resolves the matched target `../up` found on `http://e.com/docs/setup`
to `http://e.com/up` and does not output `../up`. -/
theorem extractor_literal_counterexample :
    (extract_links_from_html ["/a"] "http://e.com/b" = ["http://e.com/a"] ∧
      "/a" ∉ extract_links_from_html ["/a"] "http://e.com/b") ∧
    ((mdFindAll ("see [r](../up) here").data).map Prod.snd = ["../up".data] ∧
      extract_links_from_markdown "see [r](../up) here" "http://e.com/docs/setup" =
        ["http://e.com/up"] ∧
      "../up" ∉ extract_links_from_markdown "see [r](../up) here" "http://e.com/docs/setup") := by
  exact ⟨⟨by decide, by decide⟩, by decide, by decide, by decide⟩

/-- C4 (amended): the extractors resolve, rather than return literally —
raw-markup mode outputs exactly the urljoin-resolution of every href
against the current page in order, and markdown mode outputs, for each
`[label](target)` match in order, the target itself only when it starts
with `http`, and otherwise its urljoin-resolution when that is an http(s)
URL. -/
theorem extractors_resolve_links :
    (∀ (hrefs : List String) (current_url : String),
        extract_links_from_html hrefs current_url = hrefs.map (urljoin current_url)) ∧
    (∀ (content current_url : String),
        extract_links_from_markdown content current_url =
          (mdFindAll content.data).filterMap (mdResolve current_url)) := by
  constructor
  · intro hrefs current_url
    unfold extract_links_from_html
    rw [htmlFoldResolve current_url hrefs [], List.nil_append]
  · intro content current_url
    unfold extract_links_from_markdown
    rw [mdFoldResolve current_url (mdFindAll content.data) [], List.nil_append]

/-- C5 counterexample: the header parse strips surrounding whitespace, so a
URL with a trailing space does not round-trip byte-for-byte — saving
`http://e.com/a ` (trailing blank, no newline) and re-parsing the first
line yields `http://e.com/a`. -/
theorem header_roundtrip_counterexample :
    headerUrl (savedFileContent "http://e.com/a " "body") = some "http://e.com/a" ∧
    ("http://e.com/a" : String) ≠ "http://e.com/a " := by
  exact ⟨by decide, by decide⟩

/-- C5 (amended): the header round-trip is exact for every URL that
contains no newline and carries no leading or trailing whitespace (is
fixed by `strip`): saving such a URL with any body and parsing the file's
first line the way `extract_existing_urls` does recovers it
byte-for-byte. -/
theorem header_roundtrip_amended (url content : String)
    (hn : '\n' ∉ url.data) (hs : pyStrip url = url) :
    headerUrl (savedFileContent url content) = some url := by
  have hdata : (savedFileContent url content).data =
      ('#' :: ' ' :: url.data) ++ ('\n' :: '\n' :: content.data) := by
    unfold savedFileContent
    rw [strDataAppend, strDataAppend, strDataAppend]
    have h1 : "# ".data = ['#', ' '] := rfl
    have h2 : "\n\n".data = ['\n', '\n'] := rfl
    rw [h1, h2]
    simp
  have htake : (savedFileContent url content).data.takeWhile (fun c => c ≠ '\n') =
      '#' :: ' ' :: url.data := by
    rw [hdata, takeWhileAppendAll]
    · have hstop : (('\n' :: '\n' :: content.data).takeWhile (fun c => c ≠ '\n')) = [] := by
        rw [List.takeWhile_cons]
        simp
      rw [hstop, List.append_nil]
    · intro c hc
      rcases List.mem_cons.mp hc with h | h
      · rw [h]; decide
      rcases List.mem_cons.mp h with h | h
      · rw [h]; decide
      · simp only [decide_eq_true_iff]
        intro he
        exact hn (he ▸ h)
  unfold headerUrl pyFirstLine
  dsimp only
  rw [htake]
  have hsw : pyStartsWith "# " ⟨'#' :: ' ' :: url.data⟩ = true := by
    unfold pyStartsWith
    have h1 : "# ".data = ['#', ' '] := rfl
    rw [h1]
    show listStarts ['#', ' '] ('#' :: ' ' :: url.data) = true
    simp [listStarts]
  rw [if_pos hsw]
  show some (pyStrip (⟨url.data⟩ : String)) = some url
  rw [strEta, hs]

/-- Witness for C5's amended round-trip at a concrete clean URL. -/
theorem header_roundtrip_amended_witness :
    headerUrl (savedFileContent "http://e.com/a" "body") = some "http://e.com/a" :=
  header_roundtrip_amended "http://e.com/a" "body" (by decide) (by decide)
